import Mathlib

/-
  Verification of the `logos` readings core:
  date-range resolution, content extraction, idempotent reading ingestion,
  meditation generation workflow, and moderation approval stamping.

  Sources embedded (shallowly) from:
    logos/readings/management/commands/fetch_vatican_readings.py
    logos/readings/management/commands/generate_meditation.py
    logos/readings/services/gemini.py
    logos/readings/admin.py
  The Django model layer (logos/readings/models.py) is not part of the
  source tree given; the record shapes, enums and ORM-call semantics
  (get_or_create / update_or_create / filter / exists) are modelled from
  the spec and from Django's documented contract, as noted on each
  definition.
-/

namespace Logos

/- Calendar dates are represented as proleptic-Gregorian ordinals (Int),
exactly as in Python's `datetime.date.toordinal` (ordinal 1 = 0001-01-01):
`date + timedelta(days=1)` is `d + 1`, and `<=` on dates is `<=` on ordinals.
We use `Int` directly throughout. -/

/-- Python `date.weekday()`: Monday = 0 .. Sunday = 6; ordinal 1 is a Monday. -/
def weekday (d : Int) : Int := (d - 1) % 7

/-- Ordinal to (year, month, day) in the proleptic Gregorian calendar
(standard civil-from-days computation; all intermediate quantities are
nonnegative for the positive ordinals Python's `date` can hold). -/
def civilFromDays (ordinal : Int) : Int × Int × Int :=
  let z := ordinal + 305
  let era := z / 146097
  let doe := z - era * 146097
  let yoe := (doe - doe / 1460 + doe / 36524 - doe / 146096) / 365
  let doy := doe - (365 * yoe + yoe / 4 - yoe / 100)
  let mp := (5 * doy + 2) / 153
  let d := doy - (153 * mp + 2) / 5 + 1
  let m := mp + (if mp < 10 then 3 else -9)
  let y := yoe + era * 400 + (if m ≤ 2 then 1 else 0)
  (y, m, d)

/-- Left-pad the decimal digits of a nonnegative integer with zeros. -/
def padZeros (w : Nat) (n : Int) : String :=
  let s := toString n.toNat
  if s.length < w then String.mk (List.replicate (w - s.length) '0') ++ s.data.asString
  else s

/-- Python `date.isoformat()`: "YYYY-MM-DD". -/
def isoformat (d : Int) : String :=
  let c := civilFromDays d
  padZeros 4 c.1 ++ "-" ++ padZeros 2 c.2.1 ++ "-" ++ padZeros 2 c.2.2

/-- The trailing while-loop of `Command._resolve_dates` in both commands:
`current = start; while current <= end: yield current; current += 1 day`.
Written in closed form so that it evaluates by kernel reduction;
`dateRange_unfold` below proves it satisfies the loop's recurrence. -/
def dateRange (start e : Int) : List Int :=
  (List.range (e + 1 - start).toNat).map (fun i : Nat => start + (i : Int))

theorem dateRange_unfold (start e : Int) :
    dateRange start e = if start ≤ e then start :: dateRange (start + 1) e else [] := by
  by_cases h : start ≤ e
  · rw [if_pos h]
    unfold dateRange
    have hn : (e + 1 - start).toNat = (e + 1 - (start + 1)).toNat + 1 := by omega
    rw [hn, List.range_succ_eq_map, List.map_cons, List.map_map]
    congr 1
    · simp
    · apply List.map_congr_left
      intro i _
      simp [Function.comp]
      omega
  · rw [if_neg h]
    unfold dateRange
    have hn : (e + 1 - start).toNat = 0 := by omega
    rw [hn]
    rfl

theorem dateRange_nil_iff (start e : Int) : dateRange start e = [] ↔ e < start := by
  rw [dateRange_unfold]
  by_cases h : start ≤ e
  · rw [if_pos h]
    constructor
    · intro hx
      exact absurd hx (List.cons_ne_nil _ _)
    · intro hx
      exfalso
      omega
  · rw [if_neg h]
    constructor
    · intro _
      omega
    · intro _
      rfl

theorem dateRange_mem (start e x : Int) :
    x ∈ dateRange start e ↔ start ≤ x ∧ x ≤ e := by
  rw [dateRange_unfold]
  by_cases h : start ≤ e
  · rw [if_pos h]
    rw [List.mem_cons]
    rw [dateRange_mem (start + 1) e x]
    omega
  · rw [if_neg h]
    simp only [List.not_mem_nil, false_iff]
    omega
termination_by (e + 1 - start).toNat
decreasing_by
  simp_wf
  omega

theorem dateRange_chain (start e : Int) :
    List.Chain' (fun a b => b = a + 1) (dateRange start e) := by
  rw [dateRange_unfold]
  by_cases h : start ≤ e
  · rw [if_pos h]
    rw [List.chain'_cons']
    constructor
    · intro b hb
      rw [dateRange_unfold] at hb
      by_cases h2 : start + 1 ≤ e
      · rw [if_pos h2] at hb
        simp only [List.head?_cons, Option.mem_some_iff] at hb
        omega
      · rw [if_neg h2] at hb
        simp at hb
    · exact dateRange_chain (start + 1) e
  · rw [if_neg h]
    exact List.chain'_nil
termination_by (e + 1 - start).toNat
decreasing_by
  simp_wf
  omega

theorem dateRange_single (s : Int) : dateRange s s = [s] := by
  rw [dateRange_unfold, if_pos (le_refl s), dateRange_unfold, if_neg (by omega)]

/-- The parsed option set handed to `Command._resolve_dates` (both commands
share a textually identical implementation). `none` stands for an option the
user did not pass; malformed date strings abort in `date.fromisoformat`
before the range logic runs and are outside this model. -/
structure ResolveArgs where
  date_str : Option Int
  start_str : Option Int
  end_str : Option Int
  days : Option Int
deriving DecidableEq, Repr

/-- `Command._resolve_dates` of both `fetch_vatican_readings` and
`generate_meditation` (identical code). Note the `elif days:` branch tests
Python truthiness, so `days = 0` falls through to `end = start`. -/
def resolve_dates (today : Int) (a : ResolveArgs) : List Int :=
  let se : Int × Int :=
    match a.start_str with
    | some start =>
      match a.end_str with
      | some e => (start, e)
      | none =>
        match a.days with
        | some d => if d ≠ 0 then (start, start + (d - 1)) else (start, start)
        | none => (start, start)
    | none =>
      match a.date_str with
      | some d => (d, d)
      | none => (today, today)
  dateRange se.1 se.2

/-- The resolver as claim C3 words it: with `start` given and no explicit
`end`, the end is `start + (days - 1)` whenever `days` is *given* (presence,
not truthiness). Written from the claim, to be compared with
`resolve_dates`, which is written from the source. -/
def resolve_dates_claimed (today : Int) (a : ResolveArgs) : List Int :=
  let se : Int × Int :=
    match a.start_str with
    | some start =>
      match a.end_str with
      | some e => (start, e)
      | none =>
        match a.days with
        | some d => (start, start + (d - 1))
        | none => (start, start)
    | none =>
      match a.date_str with
      | some d => (d, d)
      | none => (today, today)
  dateRange se.1 se.2

/-- The start date the source's branch structure selects. -/
def resolvedStart (today : Int) (a : ResolveArgs) : Int :=
  match a.start_str with
  | some s => s
  | none =>
    match a.date_str with
    | some d => d
    | none => today

/-- The end date the source's branch structure selects (with the
truthiness test on `days`). -/
def resolvedEnd (today : Int) (a : ResolveArgs) : Int :=
  match a.start_str with
  | some s =>
    match a.end_str with
    | some e => e
    | none =>
      match a.days with
      | some d => if d ≠ 0 then s + (d - 1) else s
      | none => s
  | none =>
    match a.date_str with
    | some d => d
    | none => today

theorem resolve_dates_eq_range (today : Int) (a : ResolveArgs) :
    resolve_dates today a = dateRange (resolvedStart today a) (resolvedEnd today a) := by
  unfold resolve_dates resolvedStart resolvedEnd
  rcases a with ⟨dstr, sstr, estr, days⟩
  cases sstr <;> cases estr <;> cases dstr <;> cases days <;> simp <;> split <;> rfl

/-- What the top of `Command.handle` does with the resolved date list,
before any per-date work. -/
inductive BatchStart
  | fatalError
  | reportedNoop
  | runs (dates : List Int)
deriving DecidableEq, Repr

/-- Top of `fetch_vatican_readings.Command.handle`: an empty resolution
raises `CommandError("No dates resolved. ...")`; otherwise the per-date
loop runs over the resolved dates. -/
def fetch_handle_start (today : Int) (a : ResolveArgs) : BatchStart :=
  let dates := resolve_dates today a
  if dates = [] then .fatalError else .runs dates

/-- Top of `generate_meditation.Command.handle`: an empty resolution writes
a message to stderr and returns without raising; otherwise the per-date
loop runs over the resolved dates. -/
def generate_handle_start (today : Int) (a : ResolveArgs) : BatchStart :=
  let dates := resolve_dates today a
  if dates = [] then .reportedNoop else .runs dates

/-- C3, counterexample: with `start` given and `days = 0` the code's
truthiness test makes the resolver return the single-day range `[start]`,
while the claim's presence-based rule (`end = start + (days - 1)` whenever
`days` is given) would make the range empty. Input: start = ordinal 5,
days = 0. -/
theorem resolver_days_zero_counterexample :
    resolve_dates 0 ⟨none, some 5, none, some 0⟩ = [5]
    ∧ resolve_dates_claimed 0 ⟨none, some 5, none, some 0⟩ = [] := by
  decide

/-- C3 (amended): `resolve_dates` returns the finite ascending sequence of
consecutive calendar dates from a resolved start to a resolved end,
inclusive of both endpoints, by priority: with `start` given, the end is
the explicit `end` if given, else `start + (days - 1)` if a *nonzero*
`days` is given, else `start`; otherwise a given single `date` yields that
one date; otherwise `[today]`. Concretely, start = 2024-01-01 (ordinal
738886) with days = 3 yields exactly the three consecutive dates
2024-01-01, 2024-01-02, 2024-01-03. -/
theorem resolver_range_rules :
    (∀ today a, resolve_dates today a =
        dateRange (resolvedStart today a) (resolvedEnd today a))
    ∧ (∀ today dstr s e days,
        resolve_dates today ⟨dstr, some s, some e, days⟩ = dateRange s e)
    ∧ (∀ today dstr s d, d ≠ 0 →
        resolve_dates today ⟨dstr, some s, none, some d⟩ = dateRange s (s + (d - 1)))
    ∧ (∀ today dstr s, resolve_dates today ⟨dstr, some s, none, none⟩ = [s])
    ∧ (∀ today d estr days, resolve_dates today ⟨some d, none, estr, days⟩ = [d])
    ∧ (∀ today estr days, resolve_dates today ⟨none, none, estr, days⟩ = [today])
    ∧ (∀ s e x, x ∈ dateRange s e ↔ s ≤ x ∧ x ≤ e)
    ∧ (∀ s e, List.Chain' (fun a b => b = a + 1) (dateRange s e))
    ∧ resolve_dates 0 ⟨none, some 738886, none, some 3⟩ = [738886, 738887, 738888] := by
  refine ⟨resolve_dates_eq_range, ?_, ?_, ?_, ?_, ?_, dateRange_mem, dateRange_chain, by decide⟩
  · intro today dstr s e days
    rfl
  · intro today dstr s d hd
    simp only [resolve_dates, if_pos hd]
  · intro today dstr s
    simpa using dateRange_single s
  · intro today d estr days
    simpa using dateRange_single d
  · intro today estr days
    simpa using dateRange_single today

/-- Witness for C3 (amended) at start = 738886, days = 3, today = 0. -/
theorem resolver_range_rules_witness :
    (3 : Int) ≠ 0
    ∧ resolve_dates 0 ⟨none, some 738886, none, some 3⟩ = dateRange 738886 (738886 + (3 - 1)) :=
  ⟨by decide, resolver_range_rules.2.2.1 0 none 738886 3 (by decide)⟩

/-- C10: with `start = s` given, a `days` value of 0 — and likewise an
absent `days` — resolves to the single-day sequence `[s]`, because the
`elif days:` branch tests Python truthiness, not presence. -/
theorem resolver_days_zero_single_day (today s : Int) (dstr : Option Int) :
    resolve_dates today ⟨dstr, some s, none, some 0⟩ = [s]
    ∧ resolve_dates today ⟨dstr, some s, none, none⟩ = [s] := by
  constructor
  · simpa [resolve_dates] using dateRange_single s
  · simpa [resolve_dates] using dateRange_single s

/-- C4, counterexample: on the spec's own example input start = 2024-01-05
(ordinal 738890), end = 2024-01-03 (ordinal 738888), the resolver returns
the empty sequence, and the ingestion command's top-level `handle` raises
`CommandError` — an error, not the no-op the claim requires of every
caller — even though usable input was plainly supplied. -/
theorem empty_range_error_counterexample :
    resolve_dates 0 ⟨none, some 738890, some 738888, none⟩ = []
    ∧ fetch_handle_start 0 ⟨none, some 738890, some 738888, none⟩ = BatchStart.fatalError := by
  decide

/-- C4 (amended): resolution produces zero dates exactly when the resolved
end is before the resolved start. The generation command treats an empty
resolved sequence as a reported no-op (stderr message, no exception); the
ingestion command instead raises its user-facing `CommandError` on *every*
empty resolved sequence — which, by the default-to-today rule, arises only
from a reversed range, never from missing input. On a nonempty sequence
both commands proceed to the per-date loop. -/
theorem empty_range_handling :
    (∀ today a, resolve_dates today a = [] ↔
        resolvedEnd today a < resolvedStart today a)
    ∧ (∀ today a, generate_handle_start today a = BatchStart.reportedNoop ↔
        resolve_dates today a = [])
    ∧ (∀ today a, fetch_handle_start today a = BatchStart.fatalError ↔
        resolve_dates today a = [])
    ∧ (∀ today a, resolve_dates today a ≠ [] →
        fetch_handle_start today a = BatchStart.runs (resolve_dates today a)
        ∧ generate_handle_start today a = BatchStart.runs (resolve_dates today a)) := by
  refine ⟨?_, ?_, ?_, ?_⟩
  · intro today a
    rw [resolve_dates_eq_range, dateRange_nil_iff]
  · intro today a
    unfold generate_handle_start
    by_cases h : resolve_dates today a = []
    · simp [h]
    · simp [h]
  · intro today a
    unfold fetch_handle_start
    by_cases h : resolve_dates today a = []
    · simp [h]
    · simp [h]
  · intro today a h
    constructor
    · simp [fetch_handle_start, h]
    · simp [generate_handle_start, h]

/-- Witness for C4 (amended) at today = 0, date = ordinal 5. -/
theorem empty_range_handling_witness :
    resolve_dates 0 ⟨some 5, none, none, none⟩ ≠ []
    ∧ fetch_handle_start 0 ⟨some 5, none, none, none⟩ =
        BatchStart.runs (resolve_dates 0 ⟨some 5, none, none, none⟩) :=
  ⟨by decide, (empty_range_handling.2.2.2 0 ⟨some 5, none, none, none⟩ (by decide)).1⟩

/-- Python `str.strip()` as applied by `p.get_text(strip=True)`: drop
leading and trailing whitespace (modelled on the character list so it
evaluates by kernel reduction). -/
def pyStrip (s : String) : String :=
  String.mk (((s.data.dropWhile Char.isWhitespace).reverse.dropWhile Char.isWhitespace).reverse)

/-- One extracted block (`ReadingBlock` dataclass in
fetch_vatican_readings.py). -/
structure ReadingBlock where
  title : String
  reference : String
  text : String
deriving DecidableEq, Repr

/-- A section element of the fetched page, as far as
`Command._extract_reading_blocks` inspects it: the values of its class
attribute, and — when the section has a "section__content" div — the raw
text of that div's paragraph nodes in document order (`none` models a
missing content div, the `content is None: continue` case). -/
structure PageSection where
  classes : List String
  content : Option (List String)
deriving DecidableEq, Repr

/-- The `class_` lambda of the `soup.find_all` call: the section carries
both the "section--evidence" and the "section--isStatic" markers. -/
def sectionMatches (s : PageSection) : Bool :=
  s.classes.contains "section--evidence" && s.classes.contains "section--isStatic"

/-- `[p.get_text(strip=True) for p in paragraphs if p.get_text(strip=True)]`:
the non-empty stripped paragraph texts of the section's content div; a
section without a content div contributes no texts. -/
def sectionTexts (s : PageSection) : List String :=
  match s.content with
  | none => []
  | some ps => (ps.map pyStrip).filter (fun t => decide (t ≠ ""))

/-- Loop body of `Command._extract_reading_blocks` for one matched
section: skip if the content div is missing or fewer than 3 non-empty
paragraphs remain (`len(texts) < 3: continue`); otherwise paragraph 1 is
the title, paragraph 2 the reference, and paragraphs 3..N the body joined
by blank lines (`"\n\n".join(texts[2:])`). -/
def blockOfSection (s : PageSection) : Option ReadingBlock :=
  match s.content with
  | none => none
  | some _ =>
    match sectionTexts s with
    | t0 :: t1 :: t2 :: rest => some ⟨t0, t1, String.intercalate "\n\n" (t2 :: rest)⟩
    | _ => none

/-- One iteration of the extractor's section loop: `continue` on an
incomplete section, `blocks.append(...)` otherwise. -/
def appendBlock (blocks : List ReadingBlock) (s : PageSection) : List ReadingBlock :=
  match blockOfSection s with
  | none => blocks
  | some b => blocks ++ [b]

/-- `Command._extract_reading_blocks`: iterate the dual-class-matched
sections in document order, appending a block for each complete section
and silently skipping the rest. -/
def extract_reading_blocks (doc : List PageSection) : List ReadingBlock :=
  (doc.filter sectionMatches).foldl appendBlock []

theorem foldl_appendBlock (l : List PageSection) (acc : List ReadingBlock) :
    l.foldl appendBlock acc = acc ++ l.filterMap blockOfSection := by
  induction l generalizing acc with
  | nil => simp
  | cons x xs ih =>
    cases hf : blockOfSection x with
    | none => simp [appendBlock, List.filterMap_cons, hf, ih]
    | some b => simp [appendBlock, List.filterMap_cons, hf, ih]

theorem sectionTexts_nil_of_no_content (s : PageSection) (hc : s.content = none) :
    sectionTexts s = [] := by
  simp [sectionTexts, hc]

/-- C8: a matched section yields a block iff it has at least 3 non-empty
stripped paragraphs; the block maps paragraph 1 to the title, paragraph 2
to the reference, and paragraphs 3..N to the body joined with one blank
line between each — with exactly 3 paragraphs the body is paragraph 3
alone; incomplete sections are skipped without error, and the extractor is
the in-order concatenation of the per-section results over the matched
sections. -/
theorem extraction_completeness_filter :
    (∀ doc, extract_reading_blocks doc =
        (doc.filter sectionMatches).filterMap blockOfSection)
    ∧ (∀ s, (blockOfSection s).isSome ↔ 3 ≤ (sectionTexts s).length)
    ∧ (∀ s t0 t1 t2 rest, sectionTexts s = t0 :: t1 :: t2 :: rest →
        blockOfSection s = some ⟨t0, t1, String.intercalate "\n\n" (t2 :: rest)⟩)
    ∧ (∀ s t0 t1 t2, sectionTexts s = [t0, t1, t2] →
        blockOfSection s = some ⟨t0, t1, t2⟩) := by
  have hshape : ∀ s t0 t1 t2 rest, sectionTexts s = t0 :: t1 :: t2 :: rest →
      blockOfSection s = some ⟨t0, t1, String.intercalate "\n\n" (t2 :: rest)⟩ := by
    intro s t0 t1 t2 rest h
    rcases hc : s.content with _ | ps
    · rw [sectionTexts_nil_of_no_content s hc] at h
      exact absurd h (by simp)
    · simp [blockOfSection, hc, h]
  refine ⟨?_, ?_, hshape, ?_⟩
  · intro doc
    unfold extract_reading_blocks
    rw [foldl_appendBlock]
    rfl
  · intro s
    rcases hc : s.content with _ | ps
    · rw [blockOfSection, hc]
      rw [sectionTexts_nil_of_no_content s hc]
      simp
    · rcases ht : sectionTexts s with _ | ⟨t0, _ | ⟨t1, _ | ⟨t2, rest⟩⟩⟩ <;>
        simp [blockOfSection, hc, ht]
  · intro s t0 t1 t2 h
    rw [hshape s t0 t1 t2 [] h]
    rfl

/-- Witness for C8 on a concrete matched section with one whitespace-only
paragraph, three non-empty ones, and surrounding whitespace to strip. -/
theorem extraction_completeness_filter_witness :
    sectionTexts ⟨["section", "section--evidence", "section--isStatic"],
        some ["  First reading  ", "Book 1, 2-3", "   ", " body text "]⟩ =
      ["First reading", "Book 1, 2-3", "body text"]
    ∧ blockOfSection ⟨["section", "section--evidence", "section--isStatic"],
        some ["  First reading  ", "Book 1, 2-3", "   ", " body text "]⟩ =
      some ⟨"First reading", "Book 1, 2-3", "body text"⟩ :=
  ⟨by decide, extraction_completeness_filter.2.2.2 _ "First reading" "Book 1, 2-3" "body text"
    (by decide)⟩

/-- Modelled from the spec: `DailyReading.ReadingType` enum of models.py
(models.py is not in the given tree; the spec lists FIRST_READING,
SECOND_READING, GOSPEL). -/
inductive ReadingType
  | FIRST_READING
  | SECOND_READING
  | GOSPEL
deriving DecidableEq, Repr

/-- Modelled from the spec: a DailyReading row. `day` holds the owning
LiturgicalDay's date, which identifies the day uniquely; the tuple
(day, language_code, reading_type, order) is the table's unique upsert
key. -/
structure DailyReading where
  day : Int
  language_code : String
  reading_type : ReadingType
  order : Int
  title : String
  reference : String
  text : String
deriving DecidableEq, Repr

/-- The upsert key (day, language_code, reading_type, order). -/
structure ReadingKey where
  day : Int
  language_code : String
  reading_type : ReadingType
  order : Int
deriving DecidableEq, Repr

def DailyReading.key (r : DailyReading) : ReadingKey :=
  ⟨r.day, r.language_code, r.reading_type, r.order⟩

/-- The row `update_or_create` builds for key `k` with `defaults` taken
from block `b` (title, reference, text). -/
def recordOf (k : ReadingKey) (b : ReadingBlock) : DailyReading :=
  ⟨k.day, k.language_code, k.reading_type, k.order, b.title, b.reference, b.text⟩

/-- Modelled from the spec and Django's documented contract:
`DailyReading.objects.update_or_create(day=.., language_code=..,
reading_type=.., order=.., defaults={title, reference, text})` — overwrite
the row matching the key in place if one exists, else insert a new row.
On a table satisfying the unique-key constraint the first match below is
the only match. -/
def update_or_create (k : ReadingKey) (b : ReadingBlock) :
    List DailyReading → List DailyReading
  | [] => [recordOf k b]
  | r :: rs => if r.key = k then recordOf k b :: rs else r :: update_or_create k b rs

/-- Number of rows carrying upsert key `k`. -/
def countKey (k : ReadingKey) (rs : List DailyReading) : Nat :=
  rs.countP (fun r => decide (r.key = k))

theorem countKey_nil (k : ReadingKey) : countKey k [] = 0 := rfl

theorem countKey_cons (k : ReadingKey) (r : DailyReading) (rs : List DailyReading) :
    countKey k (r :: rs) = countKey k rs + if r.key = k then 1 else 0 := by
  simp only [countKey, List.countP_cons]
  split <;> simp_all

theorem key_recordOf (k : ReadingKey) (b : ReadingBlock) : (recordOf k b).key = k := rfl

theorem countKey_update_self (k : ReadingKey) (b : ReadingBlock) (rs : List DailyReading) :
    countKey k (update_or_create k b rs) = max 1 (countKey k rs) := by
  induction rs with
  | nil =>
    rw [update_or_create, countKey_cons, countKey_nil, key_recordOf, if_pos rfl]
    omega
  | cons r rs ih =>
    rw [update_or_create]
    by_cases h : r.key = k
    · rw [if_pos h, countKey_cons, countKey_cons, key_recordOf, if_pos rfl, if_pos h]
      omega
    · rw [if_neg h]
      simp only [countKey_cons, if_neg h, ih]
      omega

theorem countKey_update_other (k k' : ReadingKey) (b : ReadingBlock)
    (rs : List DailyReading) (hne : k' ≠ k) :
    countKey k' (update_or_create k b rs) = countKey k' rs := by
  induction rs with
  | nil =>
    rw [update_or_create, countKey_cons, countKey_nil, key_recordOf,
      if_neg (Ne.symm hne)]
  | cons r rs ih =>
    rw [update_or_create]
    by_cases h : r.key = k
    · rw [if_pos h, countKey_cons, countKey_cons, key_recordOf, h]
    · rw [if_neg h, countKey_cons, countKey_cons, ih]

theorem length_update_or_create (k : ReadingKey) (b : ReadingBlock) (rs : List DailyReading) :
    (update_or_create k b rs).length =
      if countKey k rs = 0 then rs.length + 1 else rs.length := by
  induction rs with
  | nil => rw [update_or_create, countKey_nil, if_pos rfl, List.length_singleton, List.length_nil]
  | cons r rs ih =>
    rw [update_or_create]
    by_cases h : r.key = k
    · rw [if_pos h, countKey_cons, if_pos h]
      rw [if_neg (by omega)]
      rfl
    · rw [if_neg h, countKey_cons, if_neg h]
      simp only [List.length_cons, ih, Nat.add_zero]
      by_cases hc : countKey k rs = 0
      · rw [if_pos hc, if_pos hc]
      · rw [if_neg hc, if_neg hc]

theorem countKey_update_le (k k' : ReadingKey) (b : ReadingBlock) (rs : List DailyReading) :
    countKey k' rs ≤ countKey k' (update_or_create k b rs) := by
  by_cases h : k' = k
  · subst h
    rw [countKey_update_self]
    omega
  · rw [countKey_update_other k k' b rs h]

/-- The sequence of `_upsert_reading` calls, folded left over the table. -/
def applyUpserts (l : List (ReadingKey × ReadingBlock)) (rs : List DailyReading) :
    List DailyReading :=
  l.foldl (fun acc kb => update_or_create kb.1 kb.2 acc) rs

theorem applyUpserts_nil (rs : List DailyReading) : applyUpserts [] rs = rs := rfl

theorem applyUpserts_cons (kb : ReadingKey × ReadingBlock)
    (tl : List (ReadingKey × ReadingBlock)) (rs : List DailyReading) :
    applyUpserts (kb :: tl) rs = applyUpserts tl (update_or_create kb.1 kb.2 rs) := rfl

theorem countKey_applyUpserts_le (k : ReadingKey) (l : List (ReadingKey × ReadingBlock))
    (rs : List DailyReading) :
    countKey k rs ≤ countKey k (applyUpserts l rs) := by
  induction l generalizing rs with
  | nil => exact le_refl _
  | cons kb tl ih =>
    rw [applyUpserts_cons]
    exact le_trans (countKey_update_le kb.1 k kb.2 rs) (ih (update_or_create kb.1 kb.2 rs))

theorem countKey_applyUpserts_untouched (k : ReadingKey)
    (l : List (ReadingKey × ReadingBlock)) (rs : List DailyReading)
    (h : k ∉ l.map Prod.fst) :
    countKey k (applyUpserts l rs) = countKey k rs := by
  induction l generalizing rs with
  | nil => rfl
  | cons kb tl ih =>
    simp only [List.map_cons, List.mem_cons, not_or] at h
    rw [applyUpserts_cons]
    rw [ih (update_or_create kb.1 kb.2 rs) h.2]
    exact countKey_update_other kb.1 k kb.2 rs h.1

theorem countKey_applyUpserts_touched (k : ReadingKey)
    (l : List (ReadingKey × ReadingBlock)) (rs : List DailyReading)
    (hnd : (l.map Prod.fst).Nodup) (hmem : k ∈ l.map Prod.fst) :
    countKey k (applyUpserts l rs) = max 1 (countKey k rs) := by
  induction l generalizing rs with
  | nil => exact absurd hmem (by simp)
  | cons kb tl ih =>
    simp only [List.map_cons, List.nodup_cons] at hnd
    simp only [List.map_cons, List.mem_cons] at hmem
    rw [applyUpserts_cons]
    rcases hmem with heq | hmem
    · have hout : k ∉ tl.map Prod.fst := by
        rw [heq]
        exact hnd.1
      rw [countKey_applyUpserts_untouched k tl _ hout, heq]
      exact countKey_update_self kb.1 kb.2 rs
    · have hne : k ≠ kb.1 := by
        intro hkk
        exact hnd.1 (hkk ▸ hmem)
      rw [ih (update_or_create kb.1 kb.2 rs) hnd.2 hmem]
      rw [countKey_update_other kb.1 k kb.2 rs hne]

theorem length_applyUpserts_all_present (l : List (ReadingKey × ReadingBlock))
    (rs : List DailyReading) (h : ∀ kb ∈ l, countKey kb.1 rs ≠ 0) :
    (applyUpserts l rs).length = rs.length := by
  induction l generalizing rs with
  | nil => rfl
  | cons kb tl ih =>
    rw [applyUpserts_cons]
    have hlen : (update_or_create kb.1 kb.2 rs).length = rs.length := by
      rw [length_update_or_create, if_neg (h kb (by simp))]
    have htl : ∀ kb' ∈ tl, countKey kb'.1 (update_or_create kb.1 kb.2 rs) ≠ 0 := by
      intro kb' hkb'
      have h1 := countKey_update_le kb.1 kb'.1 kb.2 rs
      have h2 := h kb' (by simp [hkb'])
      omega
    rw [ih (update_or_create kb.1 kb.2 rs) htl, hlen]

/-- The upsert calls `Command._fetch_for_date` issues for one date, in
program order: positional assignment of blocks to reading slots based on
`date.weekday() == 6` (Sunday), each guarded by `len(blocks) >= n`. -/
def upsertsForDate (date : Int) (lang : String) (blocks : List ReadingBlock) :
    List (ReadingKey × ReadingBlock) :=
  if weekday date = 6 then
    match blocks with
    | [] => []
    | [b0] => [(⟨date, lang, .FIRST_READING, 1⟩, b0)]
    | [b0, b1] =>
        [(⟨date, lang, .FIRST_READING, 1⟩, b0), (⟨date, lang, .SECOND_READING, 1⟩, b1)]
    | b0 :: b1 :: b2 :: _ =>
        [(⟨date, lang, .FIRST_READING, 1⟩, b0), (⟨date, lang, .SECOND_READING, 1⟩, b1),
         (⟨date, lang, .GOSPEL, 1⟩, b2)]
  else
    match blocks with
    | [] => []
    | [b0] => [(⟨date, lang, .FIRST_READING, 1⟩, b0)]
    | b0 :: b1 :: _ =>
        [(⟨date, lang, .FIRST_READING, 1⟩, b0), (⟨date, lang, .GOSPEL, 1⟩, b1)]

/-- `Command._fetch_for_date` restricted to its effect on the DailyReading
table, given the already-extracted blocks (the HTTP fetch and the
LiturgicalDay get-or-create do not touch this table; zero blocks perform
no writes). -/
def ingest_blocks (date : Int) (lang : String) (blocks : List ReadingBlock)
    (table : List DailyReading) : List DailyReading :=
  applyUpserts (upsertsForDate date lang blocks) table

theorem upsertsForDate_keys_nodup (date : Int) (lang : String) (blocks : List ReadingBlock) :
    ((upsertsForDate date lang blocks).map Prod.fst).Nodup := by
  unfold upsertsForDate
  split <;> rcases blocks with _ | ⟨b0, _ | ⟨b1, _ | ⟨b2, rest⟩⟩⟩ <;>
    simp [ReadingKey.mk.injEq]

/-- C1: ingesting the same (date, language, blocks) a second time creates
no new DailyReading row: on a table satisfying the unique-key constraint
(at most one row per key), the second run leaves the row count unchanged
and each upserted key holds exactly one row after either run. -/
theorem ingest_upsert_idempotent (date : Int) (lang : String)
    (blocks : List ReadingBlock) (table : List DailyReading)
    (h : ∀ k, countKey k table ≤ 1) :
    (ingest_blocks date lang blocks (ingest_blocks date lang blocks table)).length
      = (ingest_blocks date lang blocks table).length
    ∧ ∀ k ∈ (upsertsForDate date lang blocks).map Prod.fst,
        countKey k (ingest_blocks date lang blocks table) = 1
        ∧ countKey k (ingest_blocks date lang blocks (ingest_blocks date lang blocks table)) = 1 := by
  have hnd := upsertsForDate_keys_nodup date lang blocks
  have hrun1 : ∀ k ∈ (upsertsForDate date lang blocks).map Prod.fst,
      countKey k (ingest_blocks date lang blocks table) = 1 := by
    intro k hk
    rw [ingest_blocks, countKey_applyUpserts_touched k _ table hnd hk]
    have := h k
    omega
  constructor
  · rw [ingest_blocks]
    apply length_applyUpserts_all_present
    intro kb hkb
    have := hrun1 kb.1 (List.mem_map_of_mem Prod.fst hkb)
    omega
  · intro k hk
    refine ⟨hrun1 k hk, ?_⟩
    rw [ingest_blocks, countKey_applyUpserts_touched k _ _ hnd hk]
    rw [hrun1 k hk]
    omega

/-- Witness for C1: ingest two blocks for Monday 2024-01-01 (ordinal
738886) into an empty table, twice. -/
theorem ingest_upsert_idempotent_witness :
    (∀ k, countKey k [] ≤ 1)
    ∧ (ingest_blocks 738886 "es" [⟨"t1", "r1", "x1"⟩, ⟨"t2", "r2", "x2"⟩]
          (ingest_blocks 738886 "es" [⟨"t1", "r1", "x1"⟩, ⟨"t2", "r2", "x2"⟩] [])).length
        = (ingest_blocks 738886 "es" [⟨"t1", "r1", "x1"⟩, ⟨"t2", "r2", "x2"⟩] []).length :=
  ⟨fun k => by simp [countKey],
   (ingest_upsert_idempotent 738886 "es" [⟨"t1", "r1", "x1"⟩, ⟨"t2", "r2", "x2"⟩] []
     (fun k => by simp [countKey])).1⟩

/-- C7: the weekday assignment policy, end to end through the upsert
machinery on a fresh table: on a non-Sunday, blocks[0] becomes
FIRST_READING order 1 and blocks[1] GOSPEL order 1, anything past index 1
ignored; on a Sunday, blocks[0..2] become FIRST_READING, SECOND_READING,
GOSPEL (each order 1), anything past index 2 ignored; missing blocks
simply produce fewer rows and no error. -/
theorem weekday_assignment_policy (date : Int) (lang : String) :
    (∀ b0 b1 rest, weekday date ≠ 6 →
        ingest_blocks date lang (b0 :: b1 :: rest) [] =
          [recordOf ⟨date, lang, .FIRST_READING, 1⟩ b0,
           recordOf ⟨date, lang, .GOSPEL, 1⟩ b1])
    ∧ (∀ b0, weekday date ≠ 6 →
        ingest_blocks date lang [b0] [] = [recordOf ⟨date, lang, .FIRST_READING, 1⟩ b0])
    ∧ (∀ b0 b1 b2 rest, weekday date = 6 →
        ingest_blocks date lang (b0 :: b1 :: b2 :: rest) [] =
          [recordOf ⟨date, lang, .FIRST_READING, 1⟩ b0,
           recordOf ⟨date, lang, .SECOND_READING, 1⟩ b1,
           recordOf ⟨date, lang, .GOSPEL, 1⟩ b2])
    ∧ (∀ b0 b1, weekday date = 6 →
        ingest_blocks date lang [b0, b1] [] =
          [recordOf ⟨date, lang, .FIRST_READING, 1⟩ b0,
           recordOf ⟨date, lang, .SECOND_READING, 1⟩ b1])
    ∧ (∀ b0, weekday date = 6 →
        ingest_blocks date lang [b0] [] = [recordOf ⟨date, lang, .FIRST_READING, 1⟩ b0])
    ∧ ingest_blocks date lang [] [] = [] := by
  refine ⟨?_, ?_, ?_, ?_, ?_, ?_⟩
  · intro b0 b1 rest hw
    simp [ingest_blocks, upsertsForDate, if_neg hw, applyUpserts, update_or_create,
      DailyReading.key, recordOf, ReadingKey.mk.injEq]
  · intro b0 hw
    simp [ingest_blocks, upsertsForDate, if_neg hw, applyUpserts, update_or_create, recordOf]
  · intro b0 b1 b2 rest hw
    simp [ingest_blocks, upsertsForDate, if_pos hw, applyUpserts, update_or_create,
      DailyReading.key, recordOf, ReadingKey.mk.injEq]
  · intro b0 b1 hw
    simp [ingest_blocks, upsertsForDate, if_pos hw, applyUpserts, update_or_create,
      DailyReading.key, recordOf, ReadingKey.mk.injEq]
  · intro b0 hw
    simp [ingest_blocks, upsertsForDate, if_pos hw, applyUpserts, update_or_create, recordOf]
  · rw [ingest_blocks, upsertsForDate]
    split <;> rfl

/-- Witness for C7: Monday 2024-01-01 (ordinal 738886, weekday 0) with
three blocks, and Sunday 2023-12-31 (ordinal 738885, weekday 6) with
three blocks. -/
theorem weekday_assignment_policy_witness :
    (weekday 738886 ≠ 6
      ∧ ingest_blocks 738886 "es" [⟨"t1", "r1", "x1"⟩, ⟨"t2", "r2", "x2"⟩, ⟨"t3", "r3", "x3"⟩] [] =
          [recordOf ⟨738886, "es", .FIRST_READING, 1⟩ ⟨"t1", "r1", "x1"⟩,
           recordOf ⟨738886, "es", .GOSPEL, 1⟩ ⟨"t2", "r2", "x2"⟩])
    ∧ (weekday 738885 = 6
      ∧ ingest_blocks 738885 "es" [⟨"t1", "r1", "x1"⟩, ⟨"t2", "r2", "x2"⟩, ⟨"t3", "r3", "x3"⟩] [] =
          [recordOf ⟨738885, "es", .FIRST_READING, 1⟩ ⟨"t1", "r1", "x1"⟩,
           recordOf ⟨738885, "es", .SECOND_READING, 1⟩ ⟨"t2", "r2", "x2"⟩,
           recordOf ⟨738885, "es", .GOSPEL, 1⟩ ⟨"t3", "r3", "x3"⟩]) :=
  ⟨⟨by decide,
    (weekday_assignment_policy 738886 "es").1 ⟨"t1", "r1", "x1"⟩ ⟨"t2", "r2", "x2"⟩
      [⟨"t3", "r3", "x3"⟩] (by decide)⟩,
   ⟨by decide,
    (weekday_assignment_policy 738885 "es").2.2.1 ⟨"t1", "r1", "x1"⟩ ⟨"t2", "r2", "x2"⟩
      ⟨"t3", "r3", "x3"⟩ [] (by decide)⟩⟩

/-- Modelled from the spec: `GospelMeditation.Status` of models.py
(DRAFT, APPROVED, and the optional REJECTED / PUBLISHED extensions). -/
inductive MedStatus
  | DRAFT
  | APPROVED
  | REJECTED
  | PUBLISHED
deriving DecidableEq, Repr

/-- Modelled from the spec: `GospelMeditation.Source` of models.py
(AI, HUMAN). -/
inductive MedSource
  | AI
  | HUMAN
deriving DecidableEq, Repr

/-- Modelled from the spec: the GospelMeditation fields the generation
command writes (`day` holds the owning LiturgicalDay's date; the approval
stamps live in the admin model further below and are NULL on creation). -/
structure MeditationRow where
  day : Int
  language_code : String
  title : String
  body : String
  source : MedSource
  status : MedStatus
deriving DecidableEq, Repr

/-- The persisted state the generation command reads and writes:
LiturgicalDay rows (identified by date), DailyReading rows, and
GospelMeditation rows. -/
structure DB where
  days : List Int
  readings : List DailyReading
  meditations : List MeditationRow
deriving DecidableEq, Repr

/-- `DailyReading.objects.filter(day=.., language_code=..,
reading_type=GOSPEL)`. -/
def gospelMatches (db : DB) (date : Int) (lang : String) : List DailyReading :=
  db.readings.filter (fun r =>
    decide (r.day = date) && decide (r.language_code = lang)
      && decide (r.reading_type = ReadingType.GOSPEL))

/-- `.order_by("order").first()`: the earliest row of minimal `order`
(`none` on an empty query set). -/
def firstMinOrder : List DailyReading → Option DailyReading
  | [] => none
  | r :: rs =>
    match firstMinOrder rs with
    | none => some r
    | some m => if r.order ≤ m.order then some r else some m

/-- The gospel reading `_generate_for_date` selects for (day, language). -/
def gospelFor (db : DB) (date : Int) (lang : String) : Option DailyReading :=
  firstMinOrder (gospelMatches db date lang)

/-- `GospelMeditation.objects.filter(day=.., language_code=..).exists()`. -/
def hasMeditation (db : DB) (date : Int) (lang : String) : Bool :=
  db.meditations.any (fun m => decide (m.day = date) && decide (m.language_code = lang))

/-- Per-date outcome of `Command._generate_for_date`: one constructor per
distinct exit path (the three warning-level skips, the caught
`GeminiError`, and the success path). -/
inductive GenResult
  | skipNoDay
  | skipExists
  | skipNoGospel
  | geminiError
  | created
deriving DecidableEq, Repr

/-- The title template of generate_meditation.py, character for character
(`f"Meditaci√≥n para el evangelio de hoy ({...isoformat()})"`). -/
def meditationTitle (date : Int) : String :=
  "Meditaci√≥n para el evangelio de hoy (" ++ isoformat date ++ ")"

/-- `Command._generate_for_date`. The external generator is a parameter
`gen : gospel text → reference → date → language → Option body`; `none`
models a raised `GeminiError`, which the command catches, reports to
stderr and returns on. -/
def generate_for_date (gen : String → String → Int → String → Option String)
    (force : Bool) (lang : String) (date : Int) (db : DB) : DB × GenResult :=
  if date ∈ db.days then
    if !force && hasMeditation db date lang then
      (db, .skipExists)
    else
      match gospelFor db date lang with
      | none => (db, .skipNoGospel)
      | some gospel =>
        match gen gospel.text gospel.reference date lang with
        | none => (db, .geminiError)
        | some body =>
          ({ db with meditations := db.meditations ++
              [⟨date, lang, meditationTitle date, body, .AI, .DRAFT⟩] }, .created)
  else (db, .skipNoDay)

/-- The per-date loop of `generate_meditation.Command.handle`: each date
is handled fully, in order, and nothing a date does aborts the loop. -/
def generate_batch (gen : String → String → Int → String → Option String)
    (force : Bool) (lang : String) : List Int → DB → DB × List GenResult
  | [], db => (db, [])
  | d :: ds, db =>
    let s := generate_for_date gen force lang d db
    let rest := generate_batch gen force lang ds s.1
    (rest.1, s.2 :: rest.2)

theorem hasMeditation_iff (db : DB) (date : Int) (lang : String) :
    hasMeditation db date lang = true ↔
      ∃ m ∈ db.meditations, m.day = date ∧ m.language_code = lang := by
  simp [hasMeditation, List.any_eq_true]

theorem firstMinOrder_none_iff (l : List DailyReading) :
    firstMinOrder l = none ↔ l = [] := by
  cases l with
  | nil => simp [firstMinOrder]
  | cons r rs =>
    constructor
    · intro h
      exfalso
      cases hr : firstMinOrder rs with
      | none =>
        simp only [firstMinOrder, hr] at h
        exact Option.noConfusion h
      | some m =>
        simp only [firstMinOrder, hr] at h
        split at h <;> exact Option.noConfusion h
    · intro h
      exact absurd h (List.cons_ne_nil r rs)

theorem firstMinOrder_min : ∀ (l : List DailyReading) (g : DailyReading),
    firstMinOrder l = some g → g ∈ l ∧ ∀ r ∈ l, g.order ≤ r.order := by
  intro l
  induction l with
  | nil =>
    intro g h
    simp [firstMinOrder] at h
  | cons r rs ih =>
    intro g h
    cases hr : firstMinOrder rs with
    | none =>
      simp only [firstMinOrder, hr] at h
      have hnil : rs = [] := (firstMinOrder_none_iff rs).mp hr
      subst hnil
      injection h with h
      subst h
      simp
    | some m =>
      simp only [firstMinOrder, hr] at h
      have hm := ih m hr
      by_cases hle : r.order ≤ m.order
      · rw [if_pos hle] at h
        injection h with h
        subst h
        refine ⟨by simp, ?_⟩
        intro r' hr'
        rcases List.mem_cons.mp hr' with h1 | h1
        · subst h1
          exact le_refl _
        · exact le_trans hle (hm.2 r' h1)
      · rw [if_neg hle] at h
        injection h with h
        subst h
        refine ⟨List.mem_cons_of_mem r hm.1, ?_⟩
        intro r' hr'
        rcases List.mem_cons.mp hr' with h1 | h1
        · subst h1
          omega
        · exact hm.2 r' h1

/-- C5: `_generate_for_date` checks its preconditions in order — missing
LiturgicalDay, existing meditation without force, missing GOSPEL reading
(taking the smallest `order` when several exist) — and each unmet
precondition yields its own distinct skip outcome, writes nothing, and
the batch loop still visits every remaining date. -/
theorem generation_preconditions :
    (∀ gen force lang date db, date ∉ db.days →
        generate_for_date gen force lang date db = (db, GenResult.skipNoDay))
    ∧ (∀ gen lang date db, date ∈ db.days →
        (∃ m ∈ db.meditations, m.day = date ∧ m.language_code = lang) →
        generate_for_date gen false lang date db = (db, GenResult.skipExists))
    ∧ (∀ gen force lang date db, date ∈ db.days →
        (force = true ∨ ¬ ∃ m ∈ db.meditations, m.day = date ∧ m.language_code = lang) →
        gospelFor db date lang = none →
        generate_for_date gen force lang date db = (db, GenResult.skipNoGospel))
    ∧ (∀ db date lang, gospelFor db date lang = none ↔ gospelMatches db date lang = [])
    ∧ (∀ db date lang g, gospelFor db date lang = some g →
        g ∈ gospelMatches db date lang ∧ ∀ r ∈ gospelMatches db date lang, g.order ≤ r.order)
    ∧ (∀ gen force lang dates db,
        (generate_batch gen force lang dates db).2.length = dates.length) := by
  refine ⟨?_, ?_, ?_, ?_, ?_, ?_⟩
  · intro gen force lang date db h
    rw [generate_for_date, if_neg h]
  · intro gen lang date db hday hex
    have hb : hasMeditation db date lang = true := (hasMeditation_iff db date lang).mpr hex
    rw [generate_for_date, if_pos hday]
    rw [if_pos (by simp [hb])]
  · intro gen force lang date db hday hnotex hg
    rw [generate_for_date, if_pos hday]
    have hcond : (!force && hasMeditation db date lang) = false := by
      rcases hnotex with hf | hne
      · simp [hf]
      · have : hasMeditation db date lang = false := by
          rcases hb : hasMeditation db date lang with _ | _
          · rfl
          · exact absurd ((hasMeditation_iff db date lang).mp hb) hne
        simp [this]
    rw [if_neg (by simp [hcond]), hg]
  · intro db date lang
    exact firstMinOrder_none_iff (gospelMatches db date lang)
  · intro db date lang g h
    exact firstMinOrder_min (gospelMatches db date lang) g h
  · intro gen force lang dates db
    induction dates generalizing db with
    | nil => rfl
    | cons d ds ih =>
      rw [generate_batch]
      simp only [List.length_cons]
      rw [ih]

/-- Witness for C5 at date = 5 with an existing meditation and no force. -/
theorem generation_preconditions_witness :
    (5 : Int) ∈ ([5] : List Int)
    ∧ generate_for_date (fun _ _ _ _ => some "x") false "es" 5
        ⟨[5], [], [⟨5, "es", "t", "b", MedSource.AI, MedStatus.DRAFT⟩]⟩ =
      (⟨[5], [], [⟨5, "es", "t", "b", MedSource.AI, MedStatus.DRAFT⟩]⟩, GenResult.skipExists) :=
  ⟨by decide,
   generation_preconditions.2.1 (fun _ _ _ _ => some "x") "es" 5
     ⟨[5], [], [⟨5, "es", "t", "b", MedSource.AI, MedStatus.DRAFT⟩]⟩ (by decide)
     ⟨⟨5, "es", "t", "b", MedSource.AI, MedStatus.DRAFT⟩, by decide, by decide, by decide⟩⟩

/-- C6: on generator success `_generate_for_date` appends exactly one new
GospelMeditation — source AI, status DRAFT, the generated body, and the
templated title embedding the ISO date — touching nothing else; a second
run without force on the resulting state skips with "already exists" and
changes nothing; with force the exists-guard is bypassed entirely, so a
success appends one more DRAFT row while every existing row is left in
place. -/
theorem generation_postcondition_force :
    (∀ gen force lang date db db',
        generate_for_date gen force lang date db = (db', GenResult.created) →
        ∃ gospel body, gospelFor db date lang = some gospel
          ∧ gen gospel.text gospel.reference date lang = some body
          ∧ db'.days = db.days
          ∧ db'.readings = db.readings
          ∧ db'.meditations = db.meditations ++
              [⟨date, lang, meditationTitle date, body, MedSource.AI, MedStatus.DRAFT⟩])
    ∧ (∀ gen gen2 lang date db db',
        generate_for_date gen false lang date db = (db', GenResult.created) →
        generate_for_date gen2 false lang date db' = (db', GenResult.skipExists))
    ∧ (∀ gen lang date db,
        (generate_for_date gen true lang date db).2 ≠ GenResult.skipExists) := by
  have hmain : ∀ gen force lang date db db',
      generate_for_date gen force lang date db = (db', GenResult.created) →
      ∃ gospel body, gospelFor db date lang = some gospel
        ∧ gen gospel.text gospel.reference date lang = some body
        ∧ db'.days = db.days
        ∧ db'.readings = db.readings
        ∧ db'.meditations = db.meditations ++
            [⟨date, lang, meditationTitle date, body, MedSource.AI, MedStatus.DRAFT⟩] := by
    intro gen force lang date db db' h
    rw [generate_for_date] at h
    by_cases hday : date ∈ db.days
    · rw [if_pos hday] at h
      by_cases hex : (!force && hasMeditation db date lang) = true
      · rw [if_pos hex] at h
        simp at h
      · rw [if_neg hex] at h
        cases hg : gospelFor db date lang with
        | none =>
          simp only [hg] at h
          simp at h
        | some gospel =>
          simp only [hg] at h
          cases hb : gen gospel.text gospel.reference date lang with
          | none =>
            simp only [hb] at h
            simp at h
          | some body =>
            simp only [hb] at h
            rw [Prod.mk.injEq] at h
            obtain ⟨h1, -⟩ := h
            subst h1
            exact ⟨gospel, body, rfl, hb, rfl, rfl, rfl⟩
    · rw [if_neg hday] at h
      simp at h
  refine ⟨hmain, ?_, ?_⟩
  · intro gen gen2 lang date db db' h
    obtain ⟨gospel, body, hg, hb, hdays, hreadings, hmeds⟩ := hmain gen false lang date db db' h
    have hday' : date ∈ db'.days := by
      rw [hdays]
      by_cases hday : date ∈ db.days
      · exact hday
      · rw [generate_for_date, if_neg hday] at h
        simp at h
    have hex' : hasMeditation db' date lang = true := by
      rw [hasMeditation_iff]
      exact ⟨⟨date, lang, meditationTitle date, body, MedSource.AI, MedStatus.DRAFT⟩,
        by rw [hmeds]; simp, rfl, rfl⟩
    rw [generate_for_date, if_pos hday', if_pos (by simp [hex'])]
  · intro gen lang date db
    rw [generate_for_date]
    by_cases hday : date ∈ db.days
    · rw [if_pos hday]
      rw [if_neg (by simp)]
      cases hg : gospelFor db date lang with
      | none => simp [hg]
      | some gospel =>
        simp only [hg]
        cases hb : gen gospel.text gospel.reference date lang with
        | none => simp [hb]
        | some body => simp [hb]
    · rw [if_neg hday]
      simp

/-- Witness for C6: generate for Monday 2024-01-01 (ordinal 738886) on a
ready state, then run again without force on the produced state. -/
theorem generation_postcondition_force_witness :
    generate_for_date (fun _ _ _ _ => some "body") false "es" 738886
        ⟨[738886], [⟨738886, "es", ReadingType.GOSPEL, 1, "t", "Mt 1, 1", "x"⟩], []⟩ =
      (⟨[738886], [⟨738886, "es", ReadingType.GOSPEL, 1, "t", "Mt 1, 1", "x"⟩],
         [⟨738886, "es", meditationTitle 738886, "body", MedSource.AI, MedStatus.DRAFT⟩]⟩,
       GenResult.created)
    ∧ generate_for_date (fun _ _ _ _ => some "body") false "es" 738886
        ⟨[738886], [⟨738886, "es", ReadingType.GOSPEL, 1, "t", "Mt 1, 1", "x"⟩],
         [⟨738886, "es", meditationTitle 738886, "body", MedSource.AI, MedStatus.DRAFT⟩]⟩ =
      (⟨[738886], [⟨738886, "es", ReadingType.GOSPEL, 1, "t", "Mt 1, 1", "x"⟩],
         [⟨738886, "es", meditationTitle 738886, "body", MedSource.AI, MedStatus.DRAFT⟩]⟩,
       GenResult.skipExists) :=
  ⟨by decide,
   generation_postcondition_force.2.1 (fun _ _ _ _ => some "body") (fun _ _ _ _ => some "body")
     "es" 738886
     ⟨[738886], [⟨738886, "es", ReadingType.GOSPEL, 1, "t", "Mt 1, 1", "x"⟩], []⟩
     ⟨[738886], [⟨738886, "es", ReadingType.GOSPEL, 1, "t", "Mt 1, 1", "x"⟩],
      [⟨738886, "es", meditationTitle 738886, "body", MedSource.AI, MedStatus.DRAFT⟩]⟩
     (by decide)⟩

/-- The external HTTP interaction of `generate_meditation` in
services/gemini.py, seen from the service: `requests.post` either raises
(`requests.RequestException`) or returns a status code together with the
single-candidate text when the JSON body has the expected nested shape
(`none` models a malformed shape). -/
inductive NetOutcome
  | exn (msg : String)
  | resp (status : Int) (text : Option String)
deriving DecidableEq, Repr

/-- `generate_meditation` of services/gemini.py, paired with whether the
external call was attempted at all: the `if not api_key` guard raises
`GeminiError("GEMINI_API_KEY is not configured.")` before `requests.post`
runs; an unset key is the `getattr` default `""`.  The prompt
interpolation does not affect control flow, so the oracle `net` stands
for the whole call. -/
def generate_meditation_svc (api_key : String) (net : NetOutcome) :
    Except String String × Bool :=
  if api_key = "" then (.error "GEMINI_API_KEY is not configured.", false)
  else
    match net with
    | .exn msg => (.error ("Error calling Gemini API: " ++ msg), true)
    | .resp status text =>
      if status ≠ 200 then
        (.error ("Gemini API returned HTTP " ++ toString status), true)
      else
        match text with
        | none => (.error "Unexpected Gemini response format", true)
        | some t => (.ok (pyStrip t), true)

/-- The generator the command actually calls: a raised `GeminiError`
surfaces to `_generate_for_date` as `none` (the command catches it). -/
def genOfSvc (api_key : String) (net : NetOutcome) :
    String → String → Int → String → Option String :=
  fun _ _ _ _ => (generate_meditation_svc api_key net).1.toOption

theorem genOfSvc_missing_key (net : NetOutcome) :
    genOfSvc "" net = fun _ _ _ _ => none := rfl

theorem generate_for_date_gen_none (gen : String → String → Int → String → Option String)
    (hg : ∀ a b c d, gen a b c d = none) (force : Bool) (lang : String) (date : Int) (db : DB) :
    (generate_for_date gen force lang date db).1 = db
    ∧ (generate_for_date gen force lang date db).2 ≠ GenResult.created := by
  rw [generate_for_date]
  by_cases hday : date ∈ db.days
  · rw [if_pos hday]
    by_cases hex : (!force && hasMeditation db date lang) = true
    · rw [if_pos hex]
      simp
    · rw [if_neg hex]
      cases hgo : gospelFor db date lang with
      | none => simp [hgo]
      | some gospel => simp [hgo, hg]
  · rw [if_neg hday]
    simp

theorem generate_batch_gen_none (gen : String → String → Int → String → Option String)
    (hg : ∀ a b c d, gen a b c d = none) (force : Bool) (lang : String)
    (dates : List Int) (db : DB) :
    (generate_batch gen force lang dates db).1 = db
    ∧ (generate_batch gen force lang dates db).2.length = dates.length
    ∧ ∀ r ∈ (generate_batch gen force lang dates db).2, r ≠ GenResult.created := by
  induction dates generalizing db with
  | nil => exact ⟨rfl, rfl, by simp [generate_batch]⟩
  | cons d ds ih =>
    have hstep := generate_for_date_gen_none gen hg force lang d db
    simp only [generate_batch]
    rw [hstep.1]
    have htl := ih db
    refine ⟨htl.1, ?_, ?_⟩
    · simp [htl.2.1]
    · intro r hr
      rcases List.mem_cons.mp hr with h1 | h1
      · subst h1
        exact hstep.2
      · exact htl.2.2 r h1

/-- C9, counterexample: with no API key configured and both dates fully
prepared (LiturgicalDay and gospel reading present), the batch still
processes *both* dates — each hits the per-date `except GeminiError`
handler and the loop continues — so the configuration error is not fatal
for the invocation, contradicting "no further dates in the batch are
processed". No record is created for either date. -/
theorem missing_key_fatal_counterexample :
    (generate_batch (genOfSvc "" (NetOutcome.resp 200 (some "ok"))) false "es" [5, 6]
        ⟨[5, 6], [⟨5, "es", ReadingType.GOSPEL, 1, "t", "r", "x"⟩,
                  ⟨6, "es", ReadingType.GOSPEL, 1, "t", "r", "x"⟩], []⟩).2
      = [GenResult.geminiError, GenResult.geminiError]
    ∧ (generate_batch (genOfSvc "" (NetOutcome.resp 200 (some "ok"))) false "es" [5, 6]
        ⟨[5, 6], [⟨5, "es", ReadingType.GOSPEL, 1, "t", "r", "x"⟩,
                  ⟨6, "es", ReadingType.GOSPEL, 1, "t", "r", "x"⟩], []⟩).1
      = ⟨[5, 6], [⟨5, "es", ReadingType.GOSPEL, 1, "t", "r", "x"⟩,
                  ⟨6, "es", ReadingType.GOSPEL, 1, "t", "r", "x"⟩], []⟩ := by
  decide

/-- C9 (amended): with the API key unset the service raises the
configuration error `GeminiError("GEMINI_API_KEY is not configured.")`
before any external call is attempted, and no record is ever created; but
the batch command catches the error at the per-date boundary, so every
resolved date is still visited (each failing the same way) instead of the
invocation aborting. -/
theorem missing_key_config_error :
    (∀ net, (generate_meditation_svc "" net).2 = false
        ∧ (generate_meditation_svc "" net).1 =
            Except.error "GEMINI_API_KEY is not configured.")
    ∧ (∀ net force lang dates db,
        (generate_batch (genOfSvc "" net) force lang dates db).1 = db
        ∧ (generate_batch (genOfSvc "" net) force lang dates db).2.length = dates.length
        ∧ ∀ r ∈ (generate_batch (genOfSvc "" net) force lang dates db).2,
            r ≠ GenResult.created) := by
  constructor
  · intro net
    exact ⟨rfl, rfl⟩
  · intro net force lang dates db
    exact generate_batch_gen_none (genOfSvc "" net) (fun a b c d => rfl) force lang dates db

/-- Witness for C9 (amended) on a two-date batch. -/
theorem missing_key_config_error_witness :
    (generate_meditation_svc "" (NetOutcome.resp 200 (some "ok"))).2 = false
    ∧ (generate_batch (genOfSvc "" (NetOutcome.resp 200 (some "ok"))) false "es" [5, 6]
        ⟨[5], [], []⟩).2.length = 2 :=
  ⟨(missing_key_config_error.1 (NetOutcome.resp 200 (some "ok"))).1,
   (missing_key_config_error.2 (NetOutcome.resp 200 (some "ok")) false "es" [5, 6]
     ⟨[5], [], []⟩).2.1⟩

/-- Approval-relevant state of a GospelMeditation as the admin sees it:
the moderation `status` and the `approved_by` / `approved_at` stamps
(acting user and timestamp; `none` models NULL). -/
structure AdminMedState where
  status : MedStatus
  approved_by : Option String
  approved_at : Option Int
deriving DecidableEq, Repr

/-- One admin save: the status the form's edits leave on the object
(`approved_by` / `approved_at` are in `readonly_fields`, so the form
cannot touch them), the acting `request.user`, and `timezone.now()`. -/
structure SaveEvent where
  newStatus : MedStatus
  user : String
  now : Int
deriving DecidableEq, Repr

/-- `GospelMeditationAdmin.save_model`: when the object is being saved in
APPROVED status, stamp `approved_by` with `request.user` if it is None
and `approved_at` with `timezone.now()` if it is None; otherwise save the
object as the form left it. -/
def save_model (e : SaveEvent) (m : AdminMedState) : AdminMedState :=
  let obj : AdminMedState := { m with status := e.newStatus }
  if obj.status = MedStatus.APPROVED then
    { obj with
      approved_by :=
        match obj.approved_by with
        | none => some e.user
        | some u => some u,
      approved_at :=
        match obj.approved_at with
        | none => some e.now
        | some t => some t }
  else obj

/-- A sequence of admin saves applied to one record. -/
def runSaves (events : List SaveEvent) (m : AdminMedState) : AdminMedState :=
  events.foldl (fun s e => save_model e s) m

/-- A freshly created meditation: DRAFT with NULL stamps (the state the
generation workflow creates records in). -/
def freshMeditation : AdminMedState := ⟨MedStatus.DRAFT, none, none⟩

theorem runSaves_nil (m : AdminMedState) : runSaves [] m = m := rfl

theorem runSaves_cons (e : SaveEvent) (events : List SaveEvent) (m : AdminMedState) :
    runSaves (e :: events) m = runSaves events (save_model e m) := rfl

theorem runSaves_append (l1 l2 : List SaveEvent) (m : AdminMedState) :
    runSaves (l1 ++ l2) m = runSaves l2 (runSaves l1 m) := by
  simp [runSaves, List.foldl_append]

theorem save_model_keeps_by (e : SaveEvent) (m : AdminMedState) (u : String)
    (h : m.approved_by = some u) : (save_model e m).approved_by = some u := by
  rw [save_model]
  split
  · simp [h]
  · exact h

theorem save_model_keeps_at (e : SaveEvent) (m : AdminMedState) (t : Int)
    (h : m.approved_at = some t) : (save_model e m).approved_at = some t := by
  rw [save_model]
  split
  · simp [h]
  · exact h

theorem runSaves_keeps_stamps (events : List SaveEvent) (m : AdminMedState)
    (u : String) (t : Int) (hu : m.approved_by = some u) (ht : m.approved_at = some t) :
    (runSaves events m).approved_by = some u ∧ (runSaves events m).approved_at = some t := by
  induction events generalizing m with
  | nil => exact ⟨hu, ht⟩
  | cons e es ih =>
    rw [runSaves_cons]
    exact ih (save_model e m) (save_model_keeps_by e m u hu) (save_model_keeps_at e m t ht)

theorem save_model_not_approved (e : SaveEvent) (m : AdminMedState)
    (he : e.newStatus ≠ MedStatus.APPROVED) :
    save_model e m = { m with status := e.newStatus } := by
  rw [save_model, if_neg he]

theorem runSaves_no_approval (events : List SaveEvent) (m : AdminMedState)
    (hu : m.approved_by = none) (ht : m.approved_at = none)
    (h : ∀ e ∈ events, e.newStatus ≠ MedStatus.APPROVED) :
    (runSaves events m).approved_by = none ∧ (runSaves events m).approved_at = none := by
  induction events generalizing m with
  | nil => exact ⟨hu, ht⟩
  | cons e es ih =>
    rw [runSaves_cons, save_model_not_approved e m (h e (by simp))]
    exact ih _ hu ht (fun e' he' => h e' (by simp [he']))

theorem save_model_first_approval (e : SaveEvent) (m : AdminMedState)
    (he : e.newStatus = MedStatus.APPROVED)
    (hu : m.approved_by = none) (ht : m.approved_at = none) :
    (save_model e m).approved_by = some e.user
    ∧ (save_model e m).approved_at = some e.now := by
  rw [save_model, if_pos he]
  constructor
  · simp [hu]
  · simp [ht]

/-- C2, counterexample: approve a fresh DRAFT record (stamping "alice"),
then save it again with the status edited back to DRAFT. The final state
is non-approved, yet `approved_by` still holds "alice" — `save_model`
never clears the stamps — so "approved_by and approved_at are null in
every non-approved state" fails as stated. -/
theorem approval_stamps_counterexample :
    ¬ (∀ events : List SaveEvent,
        (runSaves events freshMeditation).status ≠ MedStatus.APPROVED →
        (runSaves events freshMeditation).approved_by = none
        ∧ (runSaves events freshMeditation).approved_at = none) := by
  intro h
  have hc := h [⟨MedStatus.APPROVED, "alice", 1⟩, ⟨MedStatus.DRAFT, "bob", 2⟩] (by decide)
  exact absurd hc.1 (by decide)

/-- C2 (amended): starting from a fresh record, `approved_by` and
`approved_at` are null in every state *before* status first reaches
APPROVED; at the first save in APPROVED status they are stamped with the
acting moderator and time; and no later save — whatever its actor, edits
or status — ever changes them again (first-write-wins). -/
theorem approval_stamps_first_write :
    (∀ events : List SaveEvent,
        (∀ e ∈ events, e.newStatus ≠ MedStatus.APPROVED) →
        (runSaves events freshMeditation).approved_by = none
        ∧ (runSaves events freshMeditation).approved_at = none)
    ∧ (∀ (pre : List SaveEvent) (u : String) (t : Int) (post : List SaveEvent),
        (∀ e ∈ pre, e.newStatus ≠ MedStatus.APPROVED) →
        (runSaves (pre ++ ⟨MedStatus.APPROVED, u, t⟩ :: post) freshMeditation).approved_by = some u
        ∧ (runSaves (pre ++ ⟨MedStatus.APPROVED, u, t⟩ :: post) freshMeditation).approved_at = some t) := by
  constructor
  · intro events h
    exact runSaves_no_approval events freshMeditation rfl rfl h
  · intro pre u t post hpre
    rw [runSaves_append, runSaves_cons]
    have hnull := runSaves_no_approval pre freshMeditation rfl rfl hpre
    have hstamp := save_model_first_approval ⟨MedStatus.APPROVED, u, t⟩
      (runSaves pre freshMeditation) rfl hnull.1 hnull.2
    exact runSaves_keeps_stamps post _ u t hstamp.1 hstamp.2

/-- Witness for C2 (amended): a DRAFT save by "carol", approval by
"alice" at time 1, then an edit by "bob" and a re-approval attempt by
"eve" at time 3; the stamps remain "alice" / 1. -/
theorem approval_stamps_first_write_witness :
    (∀ e ∈ ([⟨MedStatus.DRAFT, "carol", 0⟩] : List SaveEvent),
        e.newStatus ≠ MedStatus.APPROVED)
    ∧ (runSaves ([⟨MedStatus.DRAFT, "carol", 0⟩] ++ ⟨MedStatus.APPROVED, "alice", 1⟩ ::
          [⟨MedStatus.DRAFT, "bob", 2⟩, ⟨MedStatus.APPROVED, "eve", 3⟩])
        freshMeditation).approved_by = some "alice"
    ∧ (runSaves ([⟨MedStatus.DRAFT, "carol", 0⟩] ++ ⟨MedStatus.APPROVED, "alice", 1⟩ ::
          [⟨MedStatus.DRAFT, "bob", 2⟩, ⟨MedStatus.APPROVED, "eve", 3⟩])
        freshMeditation).approved_at = some 1 :=
  ⟨by decide,
   (approval_stamps_first_write.2 [⟨MedStatus.DRAFT, "carol", 0⟩] "alice" 1
     [⟨MedStatus.DRAFT, "bob", 2⟩, ⟨MedStatus.APPROVED, "eve", 3⟩] (by decide)).1,
   (approval_stamps_first_write.2 [⟨MedStatus.DRAFT, "carol", 0⟩] "alice" 1
     [⟨MedStatus.DRAFT, "bob", 2⟩, ⟨MedStatus.APPROVED, "eve", 3⟩] (by decide)).2⟩

end Logos
